import Mathlib

/-!
# Verification of `scripts/query-pypi.py` and `scripts/refresh-metadata.py`

A shallow embedding of the two scripts of `salt-extensions-metadata`.

Modelling conventions:
* A Python `dict` keyed by package name is an association list
  `List (String × α)` whose keys are pairwise distinct (`KeysNodup`); lookup,
  insertion (at the end, as CPython dicts do) and `pop` are `lookupKey`,
  append and `eraseKey`.
* The per-package cache directory `PACKAGE_INFO_CACHE` is an association list
  from package name to the decoded msgpack payload of
  `<name>.msgpack`; a missing key is an absent file, `eraseKey` is `unlink`.
* HTTP traffic is data: a response is a record of status code, `ETag` header
  and decoded body; the network itself is a parameter of each function.
* Python truthiness of an optional string (`if etag:`) is `truthyOpt`.
-/

namespace SaltExtensionsMetadata

/-! ## Association-list dictionaries -/

/-- Keys of an association list, in insertion order. -/
def keys {α : Type} (l : List (String × α)) : List String :=
  l.map Prod.fst

/-- A Python dict has pairwise-distinct keys. -/
def KeysNodup {α : Type} (l : List (String × α)) : Prop :=
  (keys l).Nodup

/-- `d[k]` / `d.get(k)`: the value stored at key `k`, if any. -/
def lookupKey {α : Type} (k : String) : List (String × α) → Option α
  | [] => none
  | (k', v) :: rest => if k' = k then some v else lookupKey k rest

/-- `d.pop(k)` / file `unlink`: drop the first binding of key `k`. -/
def eraseKey {α : Type} (k : String) : List (String × α) → List (String × α)
  | [] => []
  | (k', v) :: rest => if k' = k then rest else (k', v) :: eraseKey k rest

theorem lookupKey_eq_none_iff {α : Type} (k : String) (l : List (String × α)) :
    lookupKey k l = none ↔ k ∉ keys l := by
  induction l with
  | nil => simp [lookupKey, keys]
  | cons hd tl ih =>
    obtain ⟨k', v⟩ := hd
    by_cases hk : k' = k
    · subst hk
      simp [lookupKey, keys]
    · simp [lookupKey, keys, hk, ih, Ne.symm hk]

theorem lookupKey_isSome_iff {α : Type} (k : String) (l : List (String × α)) :
    (lookupKey k l).isSome = true ↔ k ∈ keys l := by
  induction l with
  | nil => simp [lookupKey, keys]
  | cons hd tl ih =>
    obtain ⟨k', v⟩ := hd
    by_cases hk : k' = k
    · simp [lookupKey, keys, hk]
    · simp only [lookupKey, if_neg hk, ih, keys, List.map_cons, List.mem_cons]
      constructor
      · intro h
        exact Or.inr h
      · rintro (h | h)
        · exact absurd h.symm hk
        · exact h

theorem lookupKey_append {α : Type} (k : String) (l₁ l₂ : List (String × α)) :
    lookupKey k (l₁ ++ l₂) =
      match lookupKey k l₁ with
      | some v => some v
      | none => lookupKey k l₂ := by
  induction l₁ with
  | nil => simp [lookupKey]
  | cons hd tl ih =>
    obtain ⟨k', v⟩ := hd
    by_cases hk : k' = k <;> simp [lookupKey, hk, ih]

theorem eraseKey_sublist {α : Type} (k : String) (l : List (String × α)) :
    List.Sublist (eraseKey k l) l := by
  induction l with
  | nil => simp [eraseKey]
  | cons hd tl ih =>
    obtain ⟨k', v⟩ := hd
    by_cases hk : k' = k
    · simp only [eraseKey, if_pos hk]
      exact List.Sublist.cons (k', v) (List.Sublist.refl tl)
    · simp only [eraseKey, if_neg hk]
      exact List.Sublist.cons₂ (k', v) ih

theorem mem_keys_eraseKey {α : Type} (k p : String) (l : List (String × α))
    (h : p ∈ keys (eraseKey k l)) : p ∈ keys l :=
  ((eraseKey_sublist k l).map Prod.fst).mem h

theorem keysNodup_eraseKey {α : Type} (k : String) (l : List (String × α))
    (h : KeysNodup l) : KeysNodup (eraseKey k l) :=
  h.sublist ((eraseKey_sublist k l).map Prod.fst)

theorem lookupKey_eraseKey {α : Type} (k p : String) (l : List (String × α))
    (h : KeysNodup l) :
    lookupKey p (eraseKey k l) = if p = k then none else lookupKey p l := by
  induction l with
  | nil => simp [eraseKey, lookupKey]
  | cons hd tl ih =>
    obtain ⟨k', v⟩ := hd
    simp only [KeysNodup, keys, List.map_cons, List.nodup_cons] at h
    by_cases hk : k' = k
    · subst hk
      by_cases hp : p = k'
      · subst hp
        simp only [eraseKey, if_pos rfl, if_pos rfl]
        exact (lookupKey_eq_none_iff p tl).mpr h.1
      · simp [eraseKey, lookupKey, Ne.symm hp, hp]
    · by_cases hp : k' = p
      · subst hp
        have hpk : ¬ k' = k := hk
        simp [eraseKey, lookupKey, hk, fun hh : k' = k => hpk hh]
      · simp [eraseKey, lookupKey, hk, hp, ih h.2]

/-! ## Data model -/

/-- A value of the per-package dict stored in `index_info["packages"]`.
The Python dict may carry the keys `"etag"` and `"not-found"`; a fresh entry
(`package_list[package] = {}`) carries neither, which we model as
`etag = none`, `notFound = false`. -/
structure PackageEntry where
  etag : Option String := none
  notFound : Bool := false
deriving Repr, DecidableEq

/-- The empty dict `{}` a newly discovered package is registered with. -/
def emptyEntry : PackageEntry := {}

/-- One element of a `releases` file list of the PyPI JSON payload: the
fields `iterate_pypi_cache` touches (`yanked`, `upload_time`). Python's
truthiness test `f.get("yanked")` is the Boolean `yanked`. -/
structure ReleaseFile where
  yanked : Bool
  uploadTime : String
deriving Repr, DecidableEq

/-- The `info` sub-dict of the PyPI JSON payload: the fields the scripts
read. `keywords` is `none` when the JSON value is `null`. -/
structure PackageInfo where
  name : String
  summary : String
  keywords : Option String
deriving Repr, DecidableEq

/-- The decoded PyPI JSON payload for one package (`req.json()`), restricted
to the keys the scripts read: `data["info"]` and `data["releases"]`
(a dict from version string to file list). -/
structure PackageData where
  info : PackageInfo
  releases : List (String × List ReleaseFile)
deriving Repr, DecidableEq

/-- The contents of the cache directory `PACKAGE_INFO_CACHE`: package name
`p` maps to the decoded contents of `<p>.msgpack`; an absent key is an
absent file. -/
abbrev CacheDir : Type := List (String × PackageData)

/-- The dict persisted in `pypi-index.msgpack` (`index_info`): the index
`etag`, the script `sha256sum` and the per-package dict `packages`. -/
structure IndexInfo where
  indexEtag : Option String := none
  sha256sum : Option String := none
  packages : List (String × PackageEntry) := []
deriving Repr, DecidableEq

/-- Python truthiness of an optional string: `None` and `""` are falsy. -/
def truthyOpt : Option String → Bool
  | some s => !s.isEmpty
  | none => false

/-! ## `query-pypi.py`: constants and classification -/

/-- `PACKAGE_NAME_PREFIXES = ("salt-ext-", "saltext-", "saltext.")`. -/
def PACKAGE_NAME_PREFIXES : List String :=
  ["salt-ext-", "saltext-", "saltext."]

/-- The two YAML lists loaded at startup: `KNOWN_SALT_EXTENSIONS`
(include list) and `KNOWN_NOT_SALT_EXTENSIONS` (exclude list). -/
structure KnownPackages where
  salt : List String
  notSalt : List String
deriving Repr

/-- Python's substring test `needle in haystack` on strings. -/
def occursIn (needle haystack : String) : Bool :=
  decide (needle.toList <:+: haystack.toList)

/-- `data["info"]["keywords"] and "salt-extension" in data["info"]["keywords"]`
from `download_package_info`: the keywords string is truthy and contains
the substring `"salt-extension"`. -/
def keywordsMatch : Option String → Bool
  | some kw => !kw.isEmpty && occursIn "salt-extension" kw
  | none => false

/-- The classification block of `download_package_info` (query-pypi.py
lines 290-308): a package is a Salt extension when it is on the include
list, or it is not on the exclude list and its name starts with one of
`PACKAGE_NAME_PREFIXES` or its keywords match. -/
def isSaltExtension (known : KnownPackages) (package : String)
    (data : PackageData) : Bool :=
  if known.salt.contains package then
    true
  else if !known.notSalt.contains package then
    if PACKAGE_NAME_PREFIXES.any (fun pre => package.startsWith pre) then
      true
    else
      keywordsMatch data.info.keywords
  else
    false

/-! ## `get_index_info` (query-pypi.py lines 66-118)

The context manager is split into its entry (load + ETag invalidation) and
its exit (stamp the script hash and write the file back). The result of
running `sha256sum` on the script is a parameter: `none` models a non-zero
return code, `some s` a successful run printing digest `s`. -/

/-- `data.pop("etag", None)` applied to one per-package entry. -/
def clearEtag (e : PackageEntry) : PackageEntry :=
  { e with etag := none }

/-- The invalidation loop: `for data in index_info["packages"].values():
data.pop("etag", None)`. -/
def invalidateEtags (packages : List (String × PackageEntry)) :
    List (String × PackageEntry) :=
  packages.map (fun kv => (kv.1, clearEtag kv.2))

/-- Entry of `get_index_info`: `stored` is the decoded
`pypi-index.msgpack` if the file exists, `sha` the current script digest.
The per-package ETags are dropped when the digest cannot be computed or
differs from the stored one. -/
def get_index_info_load (stored : Option IndexInfo) (sha : Option String) :
    IndexInfo :=
  match stored with
  | none => { packages := [] }
  | some info =>
    match sha with
    | none => { info with packages := invalidateEtags info.packages }
    | some s =>
      if info.sha256sum = some s then
        info
      else
        { info with packages := invalidateEtags info.packages }

/-- Exit of `get_index_info`: the index dict that is msgpack-packed and
written back to `pypi-index.msgpack`; on a successful digest run the
current digest is stored first. -/
def get_index_info_save (info : IndexInfo) (sha : Option String) :
    IndexInfo :=
  match sha with
  | none => info
  | some s => { info with sha256sum := some s }

/-! ## `download_pypi_simple_index` (query-pypi.py lines 121-204) -/

/-- The response to the `GET https://pypi.org/simple/` request: status
code, `ETag` header (absent headers are `none`) and, for a 200 response,
the anchor texts `tree.xpath("//a/text()")` of the downloaded HTML. -/
structure IndexResponse where
  status : Nat
  etag : Option String
  names : List String
deriving Repr

/-- The `If-None-Match` header of the index request: present iff the
stored index ETag is truthy (`etag = index_info.get("etag"); if etag:`). -/
def indexRequestHeader (info : IndexInfo) : Option String :=
  if truthyOpt info.indexEtag then info.indexEtag else none

/-- The registration half of the anchor loop body:
`if package not in package_list: package_list[package] = {}`. -/
def addPkgStep (pl : List (String × PackageEntry)) (package : String) :
    List (String × PackageEntry) :=
  if (lookupKey package pl).isSome then pl else pl ++ [(package, emptyEntry)]

/-- One iteration of the anchor loop (lines 178-183): drop the name from
`old_packages` if present, and register it with `{}` if it is new. -/
def indexDiffStep (s : List String × List (String × PackageEntry))
    (package : String) : List String × List (String × PackageEntry) :=
  (s.1.erase package, addPkgStep s.2 package)

/-- One iteration of the removal loop (lines 189-193): pop the stale name
from the package dict and unlink its cache file if it exists. -/
def removeOldStep (s : List (String × PackageEntry) × CacheDir)
    (package : String) : List (String × PackageEntry) × CacheDir :=
  (eraseKey package s.1, eraseKey package s.2)

/-- `download_pypi_simple_index`: on 304 and on other non-200 statuses it
returns leaving everything unchanged; on 200 it stores the response ETag,
walks the downloaded package names adding unseen ones with `{}`, and
removes the previously cached names missing from the index together with
their per-package cache files. Returns the updated `index_info` and cache
directory. -/
def download_pypi_simple_index (resp : IndexResponse) (info : IndexInfo)
    (cache : CacheDir) : IndexInfo × CacheDir :=
  if resp.status = 304 then
    (info, cache)
  else if resp.status ≠ 200 then
    (info, cache)
  else
    let info1 : IndexInfo := { info with indexEtag := resp.etag }
    let oldPackages := keys info1.packages
    let diffed := resp.names.foldl indexDiffStep (oldPackages, info1.packages)
    let removed := diffed.1.foldl removeOldStep (diffed.2, cache)
    ({ info1 with packages := removed.1 }, removed.2)

/-! ## `download_package_info` (query-pypi.py lines 245-318) -/

/-- Outcome of `session.get(url, ...)`: `failure` is a raised
`httpx.TimeoutException` / `trio.ClosedResourceError`; `response` carries
the status code, the `ETag` header and the decoded JSON body (`none`
models a falsy `req.json()`). -/
inductive FetchOutcome where
  | failure
  | response (status : Nat) (etag : Option String) (data : Option PackageData)

/-- What one call to `download_package_info` did: the updated per-package
entry, the package's cache-file contents afterwards (`none` = no file),
whether an HTTP request was issued, and the `If-None-Match` header sent. -/
structure PkgCallResult where
  entry : PackageEntry
  cacheFile : Option PackageData
  requested : Bool
  ifNoneMatch : Option String
deriving Repr, DecidableEq

/-- `download_package_info` for one package: `entry` is
`index_info["packages"][package]`, `cacheFile` the current contents of
`PACKAGE_INFO_CACHE/<package>.msgpack`, `fetch` the outcome of the HTTP
request (unused when the entry is marked `not-found`). -/
def download_package_info (known : KnownPackages) (package : String)
    (entry : PackageEntry) (cacheFile : Option PackageData)
    (fetch : FetchOutcome) : PkgCallResult :=
  if entry.notFound then
    -- lines 248-254: skip, deleting any cache file
    { entry := entry, cacheFile := none, requested := false, ifNoneMatch := none }
  else
    let hdr := if truthyOpt entry.etag then entry.etag else none
    match fetch with
    | .failure =>
      -- lines 262-266: the request raised; nothing is touched
      { entry := entry, cacheFile := cacheFile, requested := true,
        ifNoneMatch := hdr }
    | .response status retag data =>
      -- line 267: the stored ETag is replaced by the response header
      let entry1 : PackageEntry := { entry with etag := retag }
      if status = 304 then
        -- lines 268-271: no change, cache file untouched
        { entry := entry1, cacheFile := cacheFile, requested := true,
          ifNoneMatch := hdr }
      else if status ≠ 200 then
        -- lines 272-280: mark 404s, delete any cache file
        let entry2 := if status = 404 then { entry1 with notFound := true } else entry1
        { entry := entry2, cacheFile := none, requested := true,
          ifNoneMatch := hdr }
      else
        match data with
        | none =>
          -- lines 283-289: falsy JSON, delete any cache file
          { entry := entry1, cacheFile := none, requested := true,
            ifNoneMatch := hdr }
        | some d =>
          -- lines 290-313: classify, then write or delete the cache file
          if isSaltExtension known package d then
            { entry := entry1, cacheFile := some d, requested := true,
              ifNoneMatch := hdr }
          else
            { entry := entry1, cacheFile := none, requested := true,
              ifNoneMatch := hdr }

/-! ## Cache directory paths

`query-pypi.py` line 29: `PACKAGE_INFO_CACHE = LOCAL_CACHE_PATH / "packages-info"`.
`refresh-metadata.py` line 12: `PACKAGE_INFO_CACHE = LOCAL_CACHE_PATH / "pypi-packages-info"`.
Both scripts derive `LOCAL_CACHE_PATH` from the same environment variable
(falling back to `<repo>/.cache`); the directory name appended to it is a
per-script constant. -/

/-- The per-package cache directory used by `query-pypi.py`. -/
def queryPypiPackageInfoCacheDir (localCachePath : String) : String :=
  localCachePath ++ "/" ++ "packages-info"

/-- The per-package cache directory read by `refresh-metadata.py`. -/
def refreshMetadataPackageInfoCacheDir (localCachePath : String) : String :=
  localCachePath ++ "/" ++ "pypi-packages-info"

/-! ## `refresh-metadata.py` -/

/-- `normalize`: `re.sub(r"[-_.]+", "-", name).lower()` on the character
list — each maximal run of `-`, `_`, `.` becomes a single `-`, all other
characters are lowered. -/
def normalizeChars : List Char → List Char
  | [] => []
  | c :: rest =>
    let tail := normalizeChars rest
    if c = '-' ∨ c = '_' ∨ c = '.' then
      match tail with
      | '-' :: t => '-' :: t
      | t => '-' :: t
    else
      c.toLower :: tail

/-- `normalize(name)` of refresh-metadata.py. -/
def normalize (name : String) : String :=
  ⟨normalizeChars name.toList⟩

/-- The filtering step of the `releases` comprehension:
`[f for f in ver[1] if not f.get("yanked")]`. -/
def nonYankedFiles (files : List ReleaseFile) : List ReleaseFile :=
  files.filter (fun f => !f.yanked)

/-- One element of the `releases` list built by `iterate_pypi_cache`:
`{"version": ver, "dt": files[-1]["upload_time"]}`. -/
structure ReleaseRec where
  version : String
  dt : String
deriving Repr, DecidableEq

/-- The `releases` comprehension of `iterate_pypi_cache` (lines 29-39):
map each version to its non-yanked files, keep versions with at least one
file left, and record the version and the upload time of its last file. -/
def releaseRecords (data : PackageData) : List ReleaseRec :=
  ((data.releases.map (fun vf => (vf.1, nonYankedFiles vf.2))).filter
      (fun vf => 0 < vf.2.length)).map
    (fun vf => { version := vf.1, dt := (vf.2.getLastD ⟨false, ""⟩).uploadTime })

/-- The record `iterate_pypi_cache` yields for one package, restricted to
the fields computed from the package data (the trailing dict of optional
`info` URLs, which merely copies keys verbatim, is elided). -/
structure MetadataRecord where
  name : String
  nameNormalized : String
  summary : String
  releases : Nat
  releaseFirst : ReleaseRec
  releaseLatest : ReleaseRec
deriving Repr, DecidableEq

/-- The body of `iterate_pypi_cache` for one cached package: `none` is
the `continue` taken when the filtered `releases` list is empty, otherwise
the yielded record. -/
def packageMetadataRecord (data : PackageData) : Option MetadataRecord :=
  match releaseRecords data with
  | [] => none
  | first :: rest =>
    some { name := data.info.name,
           nameNormalized := normalize data.info.name,
           summary := data.info.summary.trim,
           releases := (first :: rest).length,
           releaseFirst := first,
           releaseLatest := (first :: rest).getLastD first }

/-- `iterate_pypi_cache`: decode every `*.msgpack` file of the cache
directory in sorted file-name order and yield the per-package records.
Sorting only fixes the iteration order; it does not affect which records
appear. -/
def iterate_pypi_cache (cache : CacheDir) : List MetadataRecord :=
  ((cache.mergeSort (fun a b => a.1 ≤ b.1)).map Prod.snd).filterMap
    packageMetadataRecord

/-! ## The pipeline of `main` (query-pypi.py lines 321-356)

`main` awaits `download_pypi_simple_index` and only then awaits
`collect_packages_information`; the spawn loop of the latter is the only
producer of per-package fetch tasks. The trace below records the
completion of the index download/diff step and each per-package task
start, in program order. -/

/-- An observable pipeline event. -/
inductive Event where
  | indexDiffDone
  | packageFetch (package : String)
deriving Repr, DecidableEq

/-- The `--fast` filter of the spawn loop (query-pypi.py line 211): skip
packages on the exclude list or matching neither the include list nor the
name prefixes. -/
def fastSkip (known : KnownPackages) (package : String) : Bool :=
  known.notSalt.contains package ||
    !(known.salt.contains package ||
      PACKAGE_NAME_PREFIXES.any (fun pre => package.startsWith pre))

/-- The spawn loop of `collect_packages_information` (lines 209-222): one
`packageFetch` event per `download_package_info` task started. -/
def collectTrace (fast : Bool) (known : KnownPackages)
    (packages : List (String × PackageEntry)) : List Event :=
  (packages.filter (fun kv => !(fast && fastSkip known kv.1))).map
    (fun kv => Event.packageFetch kv.1)

/-- The event trace of `main`: the index download/diff step runs to
completion, then the per-package tasks are started from the updated
package dict. -/
def mainTrace (fast : Bool) (known : KnownPackages) (idxResp : IndexResponse)
    (info : IndexInfo) (cache : CacheDir) : List Event :=
  let stepped := download_pypi_simple_index idxResp info cache
  Event.indexDiffDone :: collectTrace fast known stepped.1.packages

/-! ## The capacity limiter of `collect_packages_information`

`main` builds `limiter = trio.CapacityLimiter(1500)` and the spawn loop
runs `async with limiter: nursery.start_soon(download_package_info, ...)`.
`download_package_info` itself never acquires the limiter. The state
machine below models exactly that interaction: the spawner acquires a
token, starts the task and releases the token on leaving the `async with`
block; a started task runs until it finishes on its own, holding no
token. -/

/-- State of the spawn loop and its tasks. -/
structure LimiterState where
  capacity : Nat
  borrowed : Nat
  spawnerHolds : Bool
  toSpawn : List String
  running : List String
deriving Repr, DecidableEq

/-- The atomic steps of `collect_packages_information` under trio:
`acquire` blocks until a token is free (entry of `async with limiter`),
`startSoonAndRelease` is `nursery.start_soon(...)` followed by the exit of
the `async with` block, and `taskFinish` is a running
`download_package_info` task returning. -/
inductive CollectStep : LimiterState → LimiterState → Prop where
  | acquire (s : LimiterState) (p : String) (rest : List String) :
      s.spawnerHolds = false → s.toSpawn = p :: rest →
      s.borrowed < s.capacity →
      CollectStep s { s with spawnerHolds := true, borrowed := s.borrowed + 1 }
  | startSoonAndRelease (s : LimiterState) (p : String) (rest : List String) :
      s.spawnerHolds = true → s.toSpawn = p :: rest →
      CollectStep s { s with spawnerHolds := false,
                             borrowed := s.borrowed - 1,
                             toSpawn := rest,
                             running := p :: s.running }
  | taskFinish (s : LimiterState) (p : String) :
      p ∈ s.running →
      CollectStep s { s with running := s.running.erase p }

/-- Reachability under `CollectStep`. -/
def CollectReachable : LimiterState → LimiterState → Prop :=
  Relation.ReflTransGen CollectStep

/-- The initial state of the spawn loop: `concurrency = 1500`
(query-pypi.py line 332), no token borrowed, no task yet started. -/
def initCollect (packages : List String) : LimiterState :=
  { capacity := 1500, borrowed := 0, spawnerHolds := false,
    toSpawn := packages, running := [] }

/-! ## Helper lemmas -/

theorem lookupKey_invalidateEtags (p : String)
    (packages : List (String × PackageEntry)) :
    lookupKey p (invalidateEtags packages) =
      (lookupKey p packages).map clearEtag := by
  induction packages with
  | nil => simp [invalidateEtags, lookupKey]
  | cons hd tl ih =>
    obtain ⟨k, v⟩ := hd
    by_cases hk : k = p
    · simp [invalidateEtags, lookupKey, hk]
    · simp only [invalidateEtags, List.map_cons, lookupKey, if_neg hk]
      simpa [invalidateEtags] using ih

theorem keywordsMatch_iff (kwOpt : Option String) :
    keywordsMatch kwOpt = true ↔
      ∃ kw, kwOpt = some kw ∧ occursIn "salt-extension" kw = true := by
  cases kwOpt with
  | none => simp [keywordsMatch]
  | some kw =>
    by_cases he : kw.isEmpty
    · have hkw : kw = "" := (String.isEmpty_iff kw).mp he
      subst hkw
      simp [keywordsMatch, occursIn]
    · simp [keywordsMatch, he]

theorem isSaltExtension_iff (known : KnownPackages) (package : String)
    (d : PackageData) :
    isSaltExtension known package d = true ↔
      package ∈ known.salt ∨
        (package ∉ known.notSalt ∧
          ((∃ pre ∈ PACKAGE_NAME_PREFIXES, package.startsWith pre = true) ∨
           (∃ kw, d.info.keywords = some kw ∧
              occursIn "salt-extension" kw = true))) := by
  unfold isSaltExtension
  by_cases hs : known.salt.contains package
  · simp [hs, List.elem_iff.mp hs]
  · have hs' : package ∉ known.salt := fun hm => hs (List.elem_iff.mpr hm)
    simp only [if_neg hs]
    by_cases hn : known.notSalt.contains package
    · have hn' : package ∈ known.notSalt := List.elem_iff.mp hn
      simp [hn, hn', hs']
    · have hn' : package ∉ known.notSalt := fun hm => hn (List.elem_iff.mpr hm)
      by_cases hp : PACKAGE_NAME_PREFIXES.any (fun pre => package.startsWith pre)
      · simp [hn, hp, hs', hn', List.any_eq_true.mp hp]
      · have hp' := hp
        rw [List.any_eq_true] at hp'
        simp [hn, hp, hs', hn', keywordsMatch_iff, hp']

/-! ## Claim theorems -/

/-- C6: when the index request returns status 304,
`download_pypi_simple_index` returns immediately with everything
unchanged: the package map keeps exactly its prior entries, the stored
index ETag is not modified, and no per-package cache file is created or
deleted. -/
theorem download_pypi_simple_index_304_frame (resp : IndexResponse)
    (info : IndexInfo) (cache : CacheDir) (h : resp.status = 304) :
    download_pypi_simple_index resp info cache = (info, cache) := by
  simp [download_pypi_simple_index, h]

/-- Witness for C6 at a concrete state. -/
theorem download_pypi_simple_index_304_frame_witness :
    download_pypi_simple_index ⟨304, some "W", ["new-pkg"]⟩
        ⟨some "E", some "H", [("kept", ⟨some "B", false⟩)]⟩
        [("kept", ⟨⟨"kept", "a summary", none⟩, []⟩)] =
      (⟨some "E", some "H", [("kept", ⟨some "B", false⟩)]⟩,
       [("kept", ⟨⟨"kept", "a summary", none⟩, []⟩)]) :=
  download_pypi_simple_index_304_frame _ _ _ rfl

/-- C2: for a package whose stored entry contains a (non-empty) ETag and
which is not skipped as `not-found`, `download_package_info` issues the
request with `If-None-Match` equal to that ETag, and a 304 response leaves
the package's cache file unchanged — neither written nor deleted. -/
theorem download_package_info_conditional_fetch (known : KnownPackages)
    (package : String) (entry : PackageEntry) (cacheFile : Option PackageData)
    (status : Nat) (retag : Option String) (data : Option PackageData)
    (e : String) (hnf : entry.notFound = false) (he : entry.etag = some e)
    (hne : e.isEmpty = false) :
    (download_package_info known package entry cacheFile
        (.response status retag data)).ifNoneMatch = some e ∧
    (download_package_info known package entry cacheFile
        (.response status retag data)).requested = true ∧
    (status = 304 →
      (download_package_info known package entry cacheFile
          (.response status retag data)).cacheFile = cacheFile) := by
  have hhdr : (if truthyOpt entry.etag then entry.etag else none) = some e := by
    simp [truthyOpt, he, hne]
  refine ⟨?_, ?_, ?_⟩
  · unfold download_package_info
    simp only [hnf, Bool.false_eq_true, if_false, hhdr]
    split
    · rfl
    · split
      · rfl
      · split
        · rfl
        · split <;> rfl
  · unfold download_package_info
    simp only [hnf, Bool.false_eq_true, if_false, hhdr]
    split
    · rfl
    · split
      · rfl
      · split
        · rfl
        · split <;> rfl
  · intro h304
    unfold download_package_info
    simp [hnf, h304]

/-- Witness for C2: a cached ETag `"abc"` and a 304 response. -/
theorem download_package_info_conditional_fetch_witness :
    (download_package_info ⟨[], []⟩ "pkg" ⟨some "abc", false⟩
        (some ⟨⟨"pkg", "s", none⟩, []⟩) (.response 304 (some "abc") none)).ifNoneMatch
        = some "abc" ∧
    (download_package_info ⟨[], []⟩ "pkg" ⟨some "abc", false⟩
        (some ⟨⟨"pkg", "s", none⟩, []⟩) (.response 304 (some "abc") none)).requested
        = true ∧
    (download_package_info ⟨[], []⟩ "pkg" ⟨some "abc", false⟩
        (some ⟨⟨"pkg", "s", none⟩, []⟩) (.response 304 (some "abc") none)).cacheFile
        = some ⟨⟨"pkg", "s", none⟩, []⟩ := by
  have h := download_package_info_conditional_fetch ⟨[], []⟩ "pkg"
    ⟨some "abc", false⟩ (some ⟨⟨"pkg", "s", none⟩, []⟩) 304 (some "abc") none
    "abc" rfl rfl rfl
  exact ⟨h.1, h.2.1, h.2.2 rfl⟩

/-- C9: a 404 response marks the entry `not-found` and removes the cache
file; an entry already marked `not-found` is skipped without any HTTP
request, its cache file is removed, and the entry is left as it was. -/
theorem download_package_info_not_found_handling (known : KnownPackages)
    (package : String) (entry : PackageEntry) (cacheFile : Option PackageData)
    (retag : Option String) (data : Option PackageData)
    (fetch : FetchOutcome) :
    (entry.notFound = false →
      (download_package_info known package entry cacheFile
          (.response 404 retag data)).entry.notFound = true ∧
      (download_package_info known package entry cacheFile
          (.response 404 retag data)).cacheFile = none) ∧
    (entry.notFound = true →
      (download_package_info known package entry cacheFile fetch).requested
          = false ∧
      (download_package_info known package entry cacheFile fetch).cacheFile
          = none ∧
      (download_package_info known package entry cacheFile fetch).entry
          = entry) := by
  constructor
  · intro h
    simp [download_package_info, h]
  · intro h
    simp [download_package_info, h]

/-- Witness for C9: a 404 on a fresh entry, then a skip on the marked
entry. -/
theorem download_package_info_not_found_handling_witness :
    ((download_package_info ⟨[], []⟩ "gone" ⟨some "E", false⟩
        (some ⟨⟨"gone", "s", none⟩, []⟩)
        (.response 404 none none)).entry.notFound = true ∧
      (download_package_info ⟨[], []⟩ "gone" ⟨some "E", false⟩
        (some ⟨⟨"gone", "s", none⟩, []⟩)
        (.response 404 none none)).cacheFile = none) ∧
    ((download_package_info ⟨[], []⟩ "gone" ⟨none, true⟩
        (some ⟨⟨"gone", "s", none⟩, []⟩) .failure).requested = false ∧
      (download_package_info ⟨[], []⟩ "gone" ⟨none, true⟩
        (some ⟨⟨"gone", "s", none⟩, []⟩) .failure).cacheFile = none ∧
      (download_package_info ⟨[], []⟩ "gone" ⟨none, true⟩
        (some ⟨⟨"gone", "s", none⟩, []⟩) .failure).entry = ⟨none, true⟩) := by
  have h1 := download_package_info_not_found_handling ⟨[], []⟩ "gone"
    ⟨some "E", false⟩ (some ⟨⟨"gone", "s", none⟩, []⟩) none none .failure
  have h2 := download_package_info_not_found_handling ⟨[], []⟩ "gone"
    ⟨none, true⟩ (some ⟨⟨"gone", "s", none⟩, []⟩) none none .failure
  exact ⟨h1.1 rfl, h2.2 rfl⟩

/-- C3: for a 200 response with non-empty JSON data, the package data is
written to the per-package cache file if and only if the package is
classified as a Salt extension — it is on the include list
`KNOWN_SALT_EXTENSIONS`, or it is not on the exclude list
`KNOWN_NOT_SALT_EXTENSIONS` and its name starts with one of
`PACKAGE_NAME_PREFIXES` or `"salt-extension"` occurs in its info
keywords; otherwise the package ends up with no cache file. -/
theorem download_package_info_salt_extension_filter (known : KnownPackages)
    (package : String) (entry : PackageEntry) (cacheFile : Option PackageData)
    (retag : Option String) (d : PackageData) (hnf : entry.notFound = false) :
    ((download_package_info known package entry cacheFile
        (.response 200 retag (some d))).cacheFile = some d ↔
      package ∈ known.salt ∨
        (package ∉ known.notSalt ∧
          ((∃ pre ∈ PACKAGE_NAME_PREFIXES, package.startsWith pre = true) ∨
           (∃ kw, d.info.keywords = some kw ∧
              occursIn "salt-extension" kw = true)))) ∧
    ((download_package_info known package entry cacheFile
        (.response 200 retag (some d))).cacheFile = some d ∨
     (download_package_info known package entry cacheFile
        (.response 200 retag (some d))).cacheFile = none) := by
  have hred : (download_package_info known package entry cacheFile
      (.response 200 retag (some d))).cacheFile =
      if isSaltExtension known package d then some d else none := by
    unfold download_package_info
    simp [hnf]
    split <;> rfl
  rw [hred]
  by_cases hsalt : isSaltExtension known package d
  · rw [if_pos hsalt]
    constructor
    · constructor
      · intro _
        exact (isSaltExtension_iff known package d).mp hsalt
      · intro _
        rfl
    · exact Or.inl rfl
  · rw [if_neg hsalt]
    constructor
    · constructor
      · intro h
        exact absurd h (by simp)
      · intro hcond
        exact absurd ((isSaltExtension_iff known package d).mpr hcond) hsalt
    · exact Or.inr rfl

/-- Witness for C3: a package whose name carries the `saltext-` name
marker is cached; the data is written verbatim. -/
theorem download_package_info_salt_extension_filter_witness :
    ((download_package_info ⟨["inc"], ["exc"]⟩ "saltext-foo" ⟨none, false⟩
        none (.response 200 (some "E")
          (some ⟨⟨"saltext-foo", "s", none⟩, []⟩))).cacheFile =
        some ⟨⟨"saltext-foo", "s", none⟩, []⟩ ↔
      "saltext-foo" ∈ ["inc"] ∨
        ("saltext-foo" ∉ ["exc"] ∧
          ((∃ pre ∈ PACKAGE_NAME_PREFIXES,
              "saltext-foo".startsWith pre = true) ∨
           (∃ kw, (none : Option String) = some kw ∧
              occursIn "salt-extension" kw = true)))) ∧
    ((download_package_info ⟨["inc"], ["exc"]⟩ "saltext-foo" ⟨none, false⟩
        none (.response 200 (some "E")
          (some ⟨⟨"saltext-foo", "s", none⟩, []⟩))).cacheFile =
        some ⟨⟨"saltext-foo", "s", none⟩, []⟩ ∨
     (download_package_info ⟨["inc"], ["exc"]⟩ "saltext-foo" ⟨none, false⟩
        none (.response 200 (some "E")
          (some ⟨⟨"saltext-foo", "s", none⟩, []⟩))).cacheFile = none) :=
  download_package_info_salt_extension_filter ⟨["inc"], ["exc"]⟩
    "saltext-foo" ⟨none, false⟩ none (some "E")
    ⟨⟨"saltext-foo", "s", none⟩, []⟩ rfl

/-- C5 (code bug): given the same `LOCAL_CACHE_PATH`, the directory
`refresh-metadata.py` reads (`pypi-packages-info`) is never the directory
`query-pypi.py` writes its per-package cache files into (`packages-info`),
so `iterate_pypi_cache` does not iterate the crawler's cache files. -/
theorem package_info_cache_dirs_differ (localCachePath : String) :
    queryPypiPackageInfoCacheDir localCachePath ≠
      refreshMetadataPackageInfoCacheDir localCachePath := by
  intro h
  have hl := congrArg String.length h
  rw [queryPypiPackageInfoCacheDir, refreshMetadataPackageInfoCacheDir,
    String.length_append, String.length_append,
    String.length_append, String.length_append] at hl
  have h1 : ("packages-info" : String).length = 13 := rfl
  have h2 : ("pypi-packages-info" : String).length = 18 := rfl
  rw [h1, h2] at hl
  omega

/-- C8: loading the cached index with an uncomputable or changed script
sha256 drops exactly the `etag` key of every per-package entry, keeping
the rest of each entry and the index-level fields; a matching digest
leaves everything untouched; saving stores the computed digest (when
there is one) and touches nothing else. -/
theorem get_index_info_sha256_invalidation (info : IndexInfo) :
    (∀ p, lookupKey p (get_index_info_load (some info) none).packages =
        (lookupKey p info.packages).map clearEtag) ∧
    ((get_index_info_load (some info) none).indexEtag = info.indexEtag ∧
     (get_index_info_load (some info) none).sha256sum = info.sha256sum) ∧
    (∀ s, info.sha256sum ≠ some s →
      (∀ p, lookupKey p (get_index_info_load (some info) (some s)).packages =
          (lookupKey p info.packages).map clearEtag) ∧
      (get_index_info_load (some info) (some s)).indexEtag = info.indexEtag ∧
      (get_index_info_load (some info) (some s)).sha256sum = info.sha256sum) ∧
    (∀ s, info.sha256sum = some s →
      get_index_info_load (some info) (some s) = info) ∧
    (∀ s, (get_index_info_save info (some s)).sha256sum = some s ∧
      (get_index_info_save info (some s)).packages = info.packages ∧
      (get_index_info_save info (some s)).indexEtag = info.indexEtag) ∧
    get_index_info_save info none = info := by
  refine ⟨?_, ⟨rfl, rfl⟩, ?_, ?_, ?_, rfl⟩
  · intro p
    simp [get_index_info_load, lookupKey_invalidateEtags]
  · intro s hs
    refine ⟨?_, ?_, ?_⟩ <;> simp [get_index_info_load, hs,
      lookupKey_invalidateEtags]
  · intro s hs
    simp [get_index_info_load, hs]
  · intro s
    exact ⟨rfl, rfl, rfl⟩

/-- Witness for C8: a changed digest clears the stored ETag but keeps the
`not-found` mark; saving stamps the new digest. -/
theorem get_index_info_sha256_invalidation_witness :
    lookupKey "pkg" (get_index_info_load
        (some ⟨some "IE", some "oldsha", [("pkg", ⟨some "E", true⟩)]⟩)
        (some "newsha")).packages = some ⟨none, true⟩ ∧
    (get_index_info_save
        ⟨some "IE", some "oldsha", [("pkg", ⟨some "E", true⟩)]⟩
        (some "newsha")).sha256sum = some "newsha" := by
  have h := get_index_info_sha256_invalidation
    ⟨some "IE", some "oldsha", [("pkg", ⟨some "E", true⟩)]⟩
  refine ⟨?_, (h.2.2.2.2.1 "newsha").1⟩
  have h2 := (h.2.2.1 "newsha" (by simp)).1 "pkg"
  rw [h2]
  rfl

theorem nonYanked_pos_iff (files : List ReleaseFile) :
    decide (0 < (nonYankedFiles files).length) =
      files.any (fun f => !f.yanked) := by
  rw [Bool.eq_iff_iff, decide_eq_true_iff, List.any_eq_true]
  constructor
  · intro h
    obtain ⟨f, hf⟩ := List.exists_mem_of_ne_nil _ (List.length_pos.mp h)
    exact ⟨f, (List.mem_filter.mp hf).1, (List.mem_filter.mp hf).2⟩
  · rintro ⟨f, hmem, hy⟩
    exact List.length_pos_of_mem (List.mem_filter.mpr ⟨hmem, hy⟩)

theorem releaseRecords_length (d : PackageData) :
    (releaseRecords d).length =
      (d.releases.filter (fun vf => vf.2.any (fun f => !f.yanked))).length := by
  unfold releaseRecords
  rw [List.length_map, List.filter_map, List.length_map]
  exact congrArg List.length (List.filter_congr
    (fun vf _ => nonYanked_pos_iff vf.2))

theorem releaseRecords_ne_nil_iff (d : PackageData) :
    releaseRecords d ≠ [] ↔
      ∃ vf ∈ d.releases, ∃ f ∈ vf.2, f.yanked = false := by
  rw [← List.length_pos, releaseRecords_length, List.length_pos]
  constructor
  · intro h
    obtain ⟨vf, hvf⟩ := List.exists_mem_of_ne_nil _ h
    have hm := List.mem_filter.mp hvf
    obtain ⟨f, hf, hy⟩ := List.any_eq_true.mp hm.2
    refine ⟨vf, hm.1, f, hf, ?_⟩
    simpa using hy
  · rintro ⟨vf, hmem, f, hf, hy⟩
    exact List.ne_nil_of_mem (List.mem_filter.mpr
      ⟨hmem, List.any_eq_true.mpr ⟨f, hf, by simp [hy]⟩⟩)

/-- C10: `iterate_pypi_cache` yields a record for a cached package iff
some version keeps at least one non-yanked file, and the yielded
`releases` field counts exactly the versions with at least one non-yanked
file. -/
theorem iterate_pypi_cache_release_count (d : PackageData) :
    ((packageMetadataRecord d).isSome = true ↔
      ∃ vf ∈ d.releases, ∃ f ∈ vf.2, f.yanked = false) ∧
    (∀ r, packageMetadataRecord d = some r →
      r.releases =
        (d.releases.filter (fun vf => vf.2.any (fun f => !f.yanked))).length) := by
  constructor
  · rw [← releaseRecords_ne_nil_iff]
    unfold packageMetadataRecord
    cases h : releaseRecords d with
    | nil => simp
    | cons first rest => simp
  · intro r hr
    unfold packageMetadataRecord at hr
    cases h : releaseRecords d with
    | nil => rw [h] at hr; cases hr
    | cons first rest =>
      rw [h] at hr
      have hh := Option.some.inj hr
      subst hh
      show (first :: rest).length = _
      rw [← h, releaseRecords_length]

/-- Witness for C10: one fully yanked version and one live version yield
a record counting a single release. -/
theorem iterate_pypi_cache_release_count_witness :
    (packageMetadataRecord
        ⟨⟨"pkg", "sum", none⟩,
         [("1.0", [⟨true, "t1"⟩]), ("2.0", [⟨false, "t2"⟩])]⟩).isSome = true ∧
    (∀ r, packageMetadataRecord
        ⟨⟨"pkg", "sum", none⟩,
         [("1.0", [⟨true, "t1"⟩]), ("2.0", [⟨false, "t2"⟩])]⟩ = some r →
      r.releases = 1) := by
  have h := iterate_pypi_cache_release_count
    ⟨⟨"pkg", "sum", none⟩,
     [("1.0", [⟨true, "t1"⟩]), ("2.0", [⟨false, "t2"⟩])]⟩
  constructor
  · exact h.1.mpr ⟨("2.0", [⟨false, "t2"⟩]), by simp, ⟨false, "t2"⟩, by simp, rfl⟩
  · intro r hr
    exact h.2 r hr

/-- C7: in the pipeline of `main`, every per-package fetch task starts
strictly after the index download/diff step has completed: in `mainTrace`
each `indexDiffDone` position precedes every `packageFetch` position. -/
theorem main_fetches_after_index_diff (fast : Bool) (known : KnownPackages)
    (idxResp : IndexResponse) (info : IndexInfo) (cache : CacheDir) :
    ∀ i j p,
      (mainTrace fast known idxResp info cache).get? i =
          some Event.indexDiffDone →
      (mainTrace fast known idxResp info cache).get? j =
          some (Event.packageFetch p) →
      i < j := by
  intro i j p hi hj
  have hall : ∀ e ∈ collectTrace fast known
      (download_pypi_simple_index idxResp info cache).1.packages,
      ∃ q, e = Event.packageFetch q := by
    intro e he
    unfold collectTrace at he
    obtain ⟨kv, _, rfl⟩ := List.mem_map.mp he
    exact ⟨kv.1, rfl⟩
  cases i with
  | zero =>
    cases j with
    | zero =>
      rw [hi] at hj
      simp at hj
    | succ j' => exact Nat.succ_pos j'
  | succ i' =>
    have hi' : (collectTrace fast known
        (download_pypi_simple_index idxResp info cache).1.packages).get? i' =
        some Event.indexDiffDone := by
      simpa [mainTrace] using hi
    obtain ⟨q, hq⟩ := hall _ (List.get?_mem hi')
    simp at hq

/-- Witness for C7 on a concrete one-package run: the fetch event sits at
position 1, after the index event at position 0. -/
theorem main_fetches_after_index_diff_witness :
    mainTrace false ⟨[], []⟩ ⟨200, some "E", ["saltext-a"]⟩
        ⟨none, none, []⟩ [] =
      [Event.indexDiffDone, Event.packageFetch "saltext-a"] ∧
    (0 : Nat) < 1 := by
  constructor
  · rfl
  · exact main_fetches_after_index_diff false ⟨[], []⟩
      ⟨200, some "E", ["saltext-a"]⟩ ⟨none, none, []⟩ [] 0 1 "saltext-a"
      rfl rfl

theorem collect_spawn_all (l : List String) :
    ∀ (cap : Nat) (run : List String), 0 < cap →
      CollectReachable ⟨cap, 0, false, l, run⟩
        ⟨cap, 0, false, [], l.reverse ++ run⟩ := by
  induction l with
  | nil =>
    intro cap run _
    simp only [List.reverse_nil, List.nil_append]
    exact Relation.ReflTransGen.refl
  | cons p rest ih =>
    intro cap run h
    refine Relation.ReflTransGen.head
      (CollectStep.acquire ⟨cap, 0, false, p :: rest, run⟩ p rest rfl rfl h) ?_
    refine Relation.ReflTransGen.head
      (CollectStep.startSoonAndRelease ⟨cap, 0 + 1, true, p :: rest, run⟩
        p rest rfl rfl) ?_
    have hrun : (p :: rest).reverse ++ run = rest.reverse ++ (p :: run) := by
      simp
    rw [hrun]
    exact ih cap (p :: run) h

/-- C4 (code bug): the `trio.CapacityLimiter(1500)` does not bound the
number of concurrently running `download_package_info` tasks: the spawn
loop releases its token right after each `nursery.start_soon` and the
spawned task never acquires the limiter, so from an index of 1501
packages a state with 1501 simultaneously running tasks is reachable. -/
theorem collect_limiter_unbounded_tasks :
    ∃ s, CollectReachable
        (initCollect ((List.range 1501).map (fun n => toString n))) s ∧
      1500 < s.running.length := by
  refine ⟨_, collect_spawn_all ((List.range 1501).map (fun n => toString n))
    1500 [] (by norm_num), ?_⟩
  simp

theorem foldl_indexDiffStep_fst (names : List String)
    (old : List String) (pl : List (String × PackageEntry)) :
    (names.foldl indexDiffStep (old, pl)).1 =
      names.foldl (fun o q => o.erase q) old := by
  induction names generalizing old pl with
  | nil => rfl
  | cons a l ih =>
    simp only [List.foldl_cons, indexDiffStep]
    exact ih _ _

theorem foldl_indexDiffStep_snd (names : List String)
    (old : List String) (pl : List (String × PackageEntry)) :
    (names.foldl indexDiffStep (old, pl)).2 = names.foldl addPkgStep pl := by
  induction names generalizing old pl with
  | nil => rfl
  | cons a l ih =>
    simp only [List.foldl_cons, indexDiffStep]
    exact ih _ _

theorem keysNodup_addPkgStep (pl : List (String × PackageEntry)) (a : String)
    (h : KeysNodup pl) : KeysNodup (addPkgStep pl a) := by
  unfold addPkgStep
  by_cases ha : (lookupKey a pl).isSome
  · rw [if_pos ha]
    exact h
  · rw [if_neg ha]
    have hnot : a ∉ keys pl := fun hmem =>
      ha ((lookupKey_isSome_iff a pl).mpr hmem)
    simp only [KeysNodup, keys, List.map_append, List.map_cons, List.map_nil,
      List.nodup_append] at h ⊢
    refine ⟨h, List.nodup_singleton a, ?_⟩
    intro x hx hx'
    simp only [List.mem_singleton] at hx'
    subst hx'
    exact hnot hx

theorem keysNodup_foldl_addPkgStep (names : List String) :
    ∀ pl : List (String × PackageEntry), KeysNodup pl →
      KeysNodup (names.foldl addPkgStep pl) := by
  induction names with
  | nil => intro pl h; exact h
  | cons a l ih =>
    intro pl h
    simp only [List.foldl_cons]
    exact ih _ (keysNodup_addPkgStep pl a h)

theorem lookupKey_foldl_addPkgStep (names : List String) :
    ∀ (pl : List (String × PackageEntry)) (p : String),
      lookupKey p (names.foldl addPkgStep pl) =
        if (lookupKey p pl).isSome then lookupKey p pl
        else if p ∈ names then some emptyEntry else none := by
  induction names with
  | nil =>
    intro pl p
    simp only [List.foldl_nil, List.not_mem_nil, if_false]
    by_cases hp : (lookupKey p pl).isSome
    · rw [if_pos hp]
    · rw [if_neg hp]
      exact Option.not_isSome_iff_eq_none.mp hp
  | cons a l ih =>
    intro pl p
    simp only [List.foldl_cons]
    rw [ih]
    by_cases ha : (lookupKey a pl).isSome
    · have hstep : addPkgStep pl a = pl := by
        unfold addPkgStep
        rw [if_pos ha]
      rw [hstep]
      by_cases hp : (lookupKey p pl).isSome
      · rw [if_pos hp, if_pos hp]
      · rw [if_neg hp, if_neg hp]
        have hpa : ¬ p = a := by
          intro hh
          subst hh
          exact hp ha
        simp [List.mem_cons, hpa]
    · have hstep : addPkgStep pl a = pl ++ [(a, emptyEntry)] := by
        unfold addPkgStep
        rw [if_neg ha]
      rw [hstep]
      by_cases hpa : p = a
      · subst hpa
        have hnone : lookupKey p pl = none :=
          Option.not_isSome_iff_eq_none.mp ha
        have happ : lookupKey p (pl ++ [(p, emptyEntry)]) = some emptyEntry := by
          rw [lookupKey_append, hnone]
          simp [lookupKey]
        rw [happ]
        simp [hnone]
      · have happ : lookupKey p (pl ++ [(a, emptyEntry)]) = lookupKey p pl := by
          rw [lookupKey_append]
          cases hl : lookupKey p pl with
          | some v => rfl
          | none =>
            simp [lookupKey]
            exact fun hh => hpa hh.symm
        rw [happ]
        by_cases hp : (lookupKey p pl).isSome
        · rw [if_pos hp, if_pos hp]
        · rw [if_neg hp, if_neg hp]
          simp [List.mem_cons, hpa]

theorem mem_foldl_erase (names : List String) :
    ∀ old : List String, old.Nodup → ∀ p : String,
      (p ∈ names.foldl (fun o q => o.erase q) old ↔
        p ∈ old ∧ p ∉ names) := by
  induction names with
  | nil =>
    intro old _ p
    simp
  | cons a l ih =>
    intro old h p
    simp only [List.foldl_cons]
    rw [ih (old.erase a) (h.erase a) p, h.mem_erase_iff]
    simp only [List.mem_cons]
    tauto

theorem foldl_removeOldStep_fst (old : List String) :
    ∀ (pl : List (String × PackageEntry)) (cache : CacheDir),
      (old.foldl removeOldStep (pl, cache)).1 =
        old.foldl (fun acc q => eraseKey q acc) pl := by
  induction old with
  | nil => intro pl cache; rfl
  | cons a rest ih =>
    intro pl cache
    simp only [List.foldl_cons, removeOldStep]
    exact ih _ _

theorem foldl_removeOldStep_snd (old : List String) :
    ∀ (pl : List (String × PackageEntry)) (cache : CacheDir),
      (old.foldl removeOldStep (pl, cache)).2 =
        old.foldl (fun acc q => eraseKey q acc) cache := by
  induction old with
  | nil => intro pl cache; rfl
  | cons a rest ih =>
    intro pl cache
    simp only [List.foldl_cons, removeOldStep]
    exact ih _ _

theorem lookupKey_foldl_eraseKey {α : Type} (old : List String) :
    ∀ (l : List (String × α)), KeysNodup l → ∀ p : String,
      lookupKey p (old.foldl (fun acc q => eraseKey q acc) l) =
        if p ∈ old then none else lookupKey p l := by
  induction old with
  | nil =>
    intro l _ p
    simp
  | cons a rest ih =>
    intro l h p
    simp only [List.foldl_cons]
    rw [ih (eraseKey a l) (keysNodup_eraseKey a l h) p,
      lookupKey_eraseKey a p l h]
    by_cases h1 : p ∈ rest
    · simp [h1, List.mem_cons]
    · by_cases h2 : p = a
      · simp [h1, h2, List.mem_cons]
      · simp [h1, h2, List.mem_cons]

theorem download_200_packages_lookup (resp : IndexResponse)
    (info : IndexInfo) (cache : CacheDir) (hnodup : KeysNodup info.packages)
    (h200 : resp.status = 200) (p : String) :
    lookupKey p (download_pypi_simple_index resp info cache).1.packages =
      if p ∈ resp.names then
        (if (lookupKey p info.packages).isSome then lookupKey p info.packages
         else some emptyEntry)
      else none := by
  have hne304 : ¬ resp.status = 304 := by omega
  have hne : ¬ resp.status ≠ 200 := by simp [h200]
  unfold download_pypi_simple_index
  rw [if_neg hne304, if_neg hne]
  simp only [foldl_removeOldStep_fst, foldl_indexDiffStep_fst,
    foldl_indexDiffStep_snd]
  rw [lookupKey_foldl_eraseKey _ _
    (keysNodup_foldl_addPkgStep resp.names _ hnodup) p]
  rw [lookupKey_foldl_addPkgStep resp.names info.packages p]
  by_cases hold : p ∈ resp.names.foldl (fun o q => o.erase q)
      (keys info.packages)
  · rw [if_pos hold]
    have hc := (mem_foldl_erase resp.names (keys info.packages) hnodup p).mp hold
    rw [if_neg hc.2]
  · rw [if_neg hold]
    by_cases hn : p ∈ resp.names
    · by_cases hk : (lookupKey p info.packages).isSome
      · simp [hn, hk]
      · simp [hn, hk]
    · have hk : ¬ (lookupKey p info.packages).isSome := by
        intro hk
        exact hold ((mem_foldl_erase resp.names (keys info.packages) hnodup
          p).mpr ⟨(lookupKey_isSome_iff p info.packages).mp hk, hn⟩)
      simp [hn, hk]

theorem download_200_cache_lookup (resp : IndexResponse)
    (info : IndexInfo) (cache : CacheDir) (hnodup : KeysNodup info.packages)
    (hcache : KeysNodup cache) (h200 : resp.status = 200) (p : String) :
    lookupKey p (download_pypi_simple_index resp info cache).2 =
      if p ∈ keys info.packages ∧ p ∉ resp.names then none
      else lookupKey p cache := by
  have hne304 : ¬ resp.status = 304 := by omega
  have hne : ¬ resp.status ≠ 200 := by simp [h200]
  unfold download_pypi_simple_index
  rw [if_neg hne304, if_neg hne]
  simp only [foldl_removeOldStep_snd, foldl_indexDiffStep_fst]
  rw [lookupKey_foldl_eraseKey _ cache hcache p]
  by_cases hold : p ∈ resp.names.foldl (fun o q => o.erase q)
      (keys info.packages)
  · rw [if_pos hold,
      if_pos ((mem_foldl_erase resp.names (keys info.packages) hnodup p).mp hold)]
  · rw [if_neg hold, if_neg (fun hc =>
      hold ((mem_foldl_erase resp.names (keys info.packages) hnodup p).mpr hc))]

/-- C1: after a 200 index download, the package map's key set equals
exactly the set of names in the downloaded index: names not previously
present are added with the empty entry, and previously cached names
absent from the new index are removed from the map and from the cache
directory. -/
theorem download_pypi_simple_index_tracks_index (resp : IndexResponse)
    (info : IndexInfo) (cache : CacheDir) (hnodup : KeysNodup info.packages)
    (hcache : KeysNodup cache) (h200 : resp.status = 200) :
    (∀ p, (lookupKey p
        (download_pypi_simple_index resp info cache).1.packages).isSome = true
      ↔ p ∈ resp.names) ∧
    (∀ p, p ∈ resp.names → lookupKey p info.packages = none →
      lookupKey p (download_pypi_simple_index resp info cache).1.packages =
        some emptyEntry) ∧
    (∀ p, p ∈ keys info.packages → p ∉ resp.names →
      lookupKey p (download_pypi_simple_index resp info cache).1.packages =
          none ∧
      lookupKey p (download_pypi_simple_index resp info cache).2 = none) := by
  refine ⟨?_, ?_, ?_⟩
  · intro p
    rw [download_200_packages_lookup resp info cache hnodup h200 p]
    by_cases hn : p ∈ resp.names
    · rw [if_pos hn]
      by_cases hk : (lookupKey p info.packages).isSome
      · rw [if_pos hk]
        simp [hk, hn]
      · rw [if_neg hk]
        simp [hn]
    · rw [if_neg hn]
      simp [hn]
  · intro p hn hnone
    rw [download_200_packages_lookup resp info cache hnodup h200 p,
      if_pos hn, if_neg (by simp [hnone])]
  · intro p hk hn
    constructor
    · rw [download_200_packages_lookup resp info cache hnodup h200 p,
        if_neg hn]
    · rw [download_200_cache_lookup resp info cache hnodup hcache h200 p,
        if_pos ⟨hk, hn⟩]

/-- Witness for C1: a two-package cached index against a new index that
keeps one name, adds one, and drops one (whose cache file disappears). -/
theorem download_pypi_simple_index_tracks_index_witness :
    ((lookupKey "kept" (download_pypi_simple_index
        ⟨200, some "N", ["kept", "fresh"]⟩
        ⟨none, none, [("gone", ⟨some "E", false⟩), ("kept", ⟨none, false⟩)]⟩
        [("gone", ⟨⟨"gone", "s", none⟩, []⟩)]).1.packages).isSome = true ↔
      "kept" ∈ ["kept", "fresh"]) ∧
    lookupKey "fresh" (download_pypi_simple_index
        ⟨200, some "N", ["kept", "fresh"]⟩
        ⟨none, none, [("gone", ⟨some "E", false⟩), ("kept", ⟨none, false⟩)]⟩
        [("gone", ⟨⟨"gone", "s", none⟩, []⟩)]).1.packages =
      some emptyEntry ∧
    lookupKey "gone" (download_pypi_simple_index
        ⟨200, some "N", ["kept", "fresh"]⟩
        ⟨none, none, [("gone", ⟨some "E", false⟩), ("kept", ⟨none, false⟩)]⟩
        [("gone", ⟨⟨"gone", "s", none⟩, []⟩)]).1.packages = none ∧
    lookupKey "gone" (download_pypi_simple_index
        ⟨200, some "N", ["kept", "fresh"]⟩
        ⟨none, none, [("gone", ⟨some "E", false⟩), ("kept", ⟨none, false⟩)]⟩
        [("gone", ⟨⟨"gone", "s", none⟩, []⟩)]).2 = none := by
  have h := download_pypi_simple_index_tracks_index
    ⟨200, some "N", ["kept", "fresh"]⟩
    ⟨none, none, [("gone", ⟨some "E", false⟩), ("kept", ⟨none, false⟩)]⟩
    [("gone", ⟨⟨"gone", "s", none⟩, []⟩)]
    (by unfold KeysNodup; decide) (by unfold KeysNodup; decide) rfl
  have h3 := h.2.2 "gone" (by decide) (by decide)
  exact ⟨h.1 "kept", h.2.1 "fresh" (by decide) (by decide), h3.1, h3.2⟩

end SaltExtensionsMetadata
